import Mathlib

/-!
Verification development for the `mistral-ocr-cli` repository
(`src/mistral_ocr/{utils,config,processor,cli}.py`).

The Python modules are shallowly embedded as executable Lean definitions:

* path and filename manipulation (`pathlib.Path.name/.stem/.suffix/.parent`,
  `str.lower`, filename sanitization) is modelled over the character list
  (`String.data`) of the full path string;
* the metadata sidecar (`load_metadata` / `save_metadata` in `utils.py`) is
  modelled with an insertion-ordered association list mirroring a Python
  `dict`;
* the processing pipeline (`OCRProcessor.process_file` /
  `process_directory` / `process` in `processor.py`) is modelled as pure
  state-passing functions; the remote OCR client is an explicit parameter
  giving the per-file outcome of the adapter invocation;
* `float` quantities (elapsed seconds) are modelled as exact rationals;
  the file-size comparison `size / (1024*1024) > max_file_size_mb` is an
  exact power-of-two division of an integral byte count, so it is embedded
  as the equivalent integer comparison `size > max * 1048576`.
-/

namespace MistralOcr

/-! ### Path and string helpers (Python `pathlib` / `str` operations) -/

/-- Split a character list at every `'/'` (used to model `pathlib` path
components).  Always returns a nonempty list of (possibly empty) segments. -/
def splitSlash : List Char → List (List Char)
  | [] => [[]]
  | c :: cs =>
    let rest := splitSlash cs
    if c = '/' then [] :: rest
    else
      match rest with
      | r :: rs => (c :: r) :: rs
      | [] => [[c]]

/-- `pathlib.Path(p).name`: the last nonempty component of the path.
(For degenerate inputs such as `"."` Python returns `""`; the pipeline only
applies this to genuine file paths, where the definitions agree.) -/
def pathName (p : String) : String :=
  ⟨((splitSlash p.data).filter (fun seg => seg ≠ [])).getLastD []⟩

/-- Index of the last `'.'` in a character list (Python `str.rfind('.')`,
with `none` for "not found"). -/
def rfindDot : List Char → Option Nat
  | [] => none
  | c :: cs =>
    match rfindDot cs with
    | some i => some (i + 1)
    | none => if c = '.' then some 0 else none

/-- `pathlib` suffix of a file *name*: `name[i:]` for the last dot position
`i` when `0 < i < len(name) - 1`, else `""`. -/
def suffixChars (name : List Char) : List Char :=
  match rfindDot name with
  | some i => if 0 < i ∧ i < name.length - 1 then name.drop i else []
  | none => []

/-- `pathlib` stem of a file *name*: the name with its suffix removed. -/
def stemChars (name : List Char) : List Char :=
  match rfindDot name with
  | some i => if 0 < i ∧ i < name.length - 1 then name.take i else name
  | none => name

/-- `pathlib.Path(p).suffix`. -/
def pathSuffix (p : String) : String := ⟨suffixChars (pathName p).data⟩

/-- `pathlib.Path(p).stem`. -/
def pathStem (p : String) : String := ⟨stemChars (pathName p).data⟩

/-- Python `str.lower()` (codepoint-wise). -/
def lowerString (s : String) : String := ⟨s.data.map Char.toLower⟩

/-- `pathlib` path join `dir / name` for a plain (relative, slash-free)
`name`: `"/"` and `"."` parent directories do not introduce an extra
component separator. -/
def pathJoin (dir name : String) : String :=
  if dir = "/" then dir ++ name
  else if dir = "." then name
  else dir ++ "/" ++ name

/-- `pathlib.Path(p).parent`. -/
def pathParent (p : String) : String :=
  let absolute : Bool := p.data.head? = some '/'
  let parts := (splitSlash p.data).filter (fun seg => seg ≠ [])
  match parts.dropLast with
  | [] => if absolute then "/" else "."
  | init =>
    (if absolute then "/" else "") ++ ⟨(init.intersperse ['/']).flatten⟩

/-- Characters replaced by `'_'` in `sanitize_filename` (`utils.py`). -/
def invalidFilenameChars : List Char := ['<', '>', ':', '\"', '/', '\\', '|', '?', '*']

/-- `utils.sanitize_filename` with `max_length=None`, which is the only way
the pipeline ever calls it (the sequential single-character `str.replace`
loop over distinct target characters, with a replacement that is itself
never replaced, is equivalent to a pointwise map). -/
def sanitize_filename (filename : String) : String :=
  ⟨filename.data.map (fun ch => if ch ∈ invalidFilenameChars then '_' else ch)⟩

/-- Full-path order used by Python's `sorted` on `pathlib.Path` values
(codepoint-lexicographic comparison of the path strings on POSIX). -/
def pathLe (a b : String) : Prop := a.data ≤ b.data

instance : DecidableRel pathLe := fun a b =>
  inferInstanceAs (Decidable (a.data ≤ b.data))

theorem string_ext {a b : String} (h : a.data = b.data) : a = b := by
  cases a; cases b; exact congrArg String.mk h

instance : IsTotal String pathLe := ⟨fun a b => le_total a.data b.data⟩

instance : IsTrans String pathLe :=
  ⟨fun _ _ _ h₁ h₂ => le_trans (α := List Char) h₁ h₂⟩

instance : IsAntisymm String pathLe :=
  ⟨fun _ _ h₁ h₂ => string_ext (le_antisymm (α := List Char) h₁ h₂)⟩

/-! ### Data model (spec §3 / `metadata.json` shape, `utils.py`) -/

/-- One entry of `files_processed` as persisted by `save_metadata`. -/
structure FileRecord where
  file : String
  size : Nat
  output : String
  last_processed : String
deriving Repr, DecidableEq

/-- A freshly accumulated record (`{"file": ..., "size": ..., "output": ...}`
appended by the pipeline); `save_metadata` stamps `last_processed` on it. -/
structure NewRecord where
  file : String
  size : Nat
  output : String
deriving Repr, DecidableEq

/-- One entry of the `errors` list. -/
structure ErrorRecord where
  file : String
  error : String
deriving Repr, DecidableEq

/-- The metadata aggregate persisted as `metadata.json`.  `last_updated` is
`none` for the zero-valued metadata returned by `load_metadata` when the
file is absent (that dict carries no `last_updated` key). -/
structure Metadata where
  files_processed : List FileRecord
  total_files : Nat
  processing_time_seconds : Rat
  errors : List ErrorRecord
  error_count : Nat
  last_updated : Option String
deriving Repr, DecidableEq

/-- The zero-valued metadata `load_metadata` returns when `metadata.json`
does not exist. -/
def emptyMetadata : Metadata :=
  { files_processed := []
    total_files := 0
    processing_time_seconds := 0
    errors := []
    error_count := 0
    last_updated := none }

/-- State of `metadata.json` on disk: absent, present but not parseable
JSON, or present with a parsed value. -/
inductive MetadataFile where
  | absent
  | unparseable
  | parsed (m : Metadata)
deriving Repr, DecidableEq

/-- `utils.load_metadata`: the zero-valued metadata when the file is
absent; `json.load` raises `json.JSONDecodeError` (a subclass of
`ValueError`) when the file exists but is not parseable, modelled as the
error case. -/
def load_metadata : MetadataFile → Except String Metadata
  | .absent => .ok emptyMetadata
  | .unparseable => .error "json.JSONDecodeError: Expecting value"
  | .parsed m => .ok m

/-- Python `dict` assignment `d[k] = v` on an insertion-ordered dict
represented as an association list: an existing key keeps its position and
gets the new value, a new key is appended at the end. -/
def dictInsert (d : List (String × FileRecord)) (k : String) (v : FileRecord) :
    List (String × FileRecord) :=
  if k ∈ d.map Prod.fst then d.map (fun q => if q.1 = k then (k, v) else q)
  else d ++ [(k, v)]

/-- `{item["file"]: item for item in records}`. -/
def buildDict (records : List FileRecord) : List (String × FileRecord) :=
  records.foldl (fun d item => dictInsert d item.file item) []

/-- `save_metadata` setting `new_file["last_processed"]` before insertion. -/
def stampRecord (nf : NewRecord) (now : String) : FileRecord :=
  { file := nf.file, size := nf.size, output := nf.output, last_processed := now }

/-- `utils.save_metadata`: re-loads the existing metadata (passed here as
`existing`, the current on-disk value), merges the new records into the
file-keyed dict (overwrite if present, append if new), adds the elapsed
time to the cumulative counter, replaces the error list with the
current-session errors, stamps `last_updated`, and returns the structure
that is written back to `metadata.json`. -/
def save_metadata (existing : Metadata) (files_processed : List NewRecord)
    (processing_time : Rat) (errors : List ErrorRecord) (now : String) : Metadata :=
  let existingFiles := buildDict existing.files_processed
  let mergedFiles := files_processed.foldl
    (fun d nf => dictInsert d nf.file (stampRecord nf now)) existingFiles
  { files_processed := mergedFiles.map Prod.snd
    total_files := mergedFiles.length
    processing_time_seconds := existing.processing_time_seconds + processing_time
    errors := errors
    error_count := errors.length
    last_updated := some now }

/-! ### Dict lemmas and the metadata invariant (claims C3, C4) -/

/-- Well-formedness of the file-keyed dict: keys are pairwise distinct and
every value records its own key in its `file` field. -/
def goodDict (d : List (String × FileRecord)) : Prop :=
  (d.map Prod.fst).Nodup ∧ ∀ q ∈ d, (q.2).file = q.1

theorem goodDict_nil : goodDict [] := by simp [goodDict]

theorem goodDict_dictInsert {d : List (String × FileRecord)} {k : String}
    {v : FileRecord} (hd : goodDict d) (hv : v.file = k) :
    goodDict (dictInsert d k v) := by
  obtain ⟨hnd, hcons⟩ := hd
  unfold dictInsert
  by_cases hk : k ∈ d.map Prod.fst
  · rw [if_pos hk]
    constructor
    · have : (d.map (fun q => if q.1 = k then (k, v) else q)).map Prod.fst =
          d.map Prod.fst := by
        rw [List.map_map]
        apply List.map_congr_left
        intro q _
        by_cases h : q.1 = k
        · simp [h]
        · simp [h]
      rw [this]; exact hnd
    · intro q hq
      rw [List.mem_map] at hq
      obtain ⟨q₀, hq₀, rfl⟩ := hq
      by_cases h : q₀.1 = k
      · simp [h, hv]
      · simpa [h] using hcons q₀ hq₀
  · rw [if_neg hk]
    constructor
    · rw [List.map_append]
      rw [List.nodup_append]
      refine ⟨hnd, by simp, ?_⟩
      intro x hx hx'
      simp only [List.map_cons, List.map_nil, List.mem_singleton] at hx'
      subst hx'
      exact hk hx
    · intro q hq
      rcases List.mem_append.mp hq with h | h
      · exact hcons q h
      · simp only [List.mem_singleton] at h
        subst h; exact hv

theorem goodDict_buildDict_from {d : List (String × FileRecord)}
    (records : List FileRecord) (hd : goodDict d) :
    goodDict (records.foldl (fun d item => dictInsert d item.file item) d) := by
  induction records generalizing d with
  | nil => exact hd
  | cons r rs ih => exact ih (goodDict_dictInsert hd rfl)

theorem goodDict_mergeFold_from {d : List (String × FileRecord)}
    (records : List NewRecord) (now : String) (hd : goodDict d) :
    goodDict (records.foldl (fun d nf => dictInsert d nf.file (stampRecord nf now)) d) := by
  induction records generalizing d with
  | nil => exact hd
  | cons r rs ih => exact ih (goodDict_dictInsert hd rfl)

theorem map_file_of_goodDict {d : List (String × FileRecord)}
    (h : ∀ q ∈ d, (q.2).file = q.1) :
    (d.map Prod.snd).map FileRecord.file = d.map Prod.fst := by
  rw [List.map_map]
  exact List.map_congr_left h

/-- C4 — after every `save_metadata`, the persisted metadata has pairwise
distinct `files_processed` keys and `total_files` equal to the number of
entries, for every prior on-disk metadata (even a malformed one) and every
list of new records (even with internal duplicates). -/
theorem claim4_save_metadata_invariant (existing : Metadata)
    (newRecords : List NewRecord) (elapsed : Rat) (errs : List ErrorRecord)
    (now : String) :
    ((save_metadata existing newRecords elapsed errs now).files_processed.map
      FileRecord.file).Nodup ∧
    (save_metadata existing newRecords elapsed errs now).total_files =
      (save_metadata existing newRecords elapsed errs now).files_processed.length := by
  have hgood : goodDict (newRecords.foldl
      (fun d nf => dictInsert d nf.file (stampRecord nf now))
      (buildDict existing.files_processed)) :=
    goodDict_mergeFold_from newRecords now
      (goodDict_buildDict_from existing.files_processed goodDict_nil)
  constructor
  · show ((_ : List (String × FileRecord)).map Prod.snd |>.map FileRecord.file).Nodup
    rw [map_file_of_goodDict hgood.2]
    exact hgood.1
  · simp [save_metadata]

/-- C3 — `save_metadata` on existing records for `{A, B}` and new records
for `{B, C}` yields records for exactly `{A, B, C}` in insertion order,
with B's record fully overwritten (timestamp included), the elapsed time
added to the cumulative counter, and the error list replaced by the
current-session errors. -/
theorem claim3_save_metadata_merge (rA rB : FileRecord) (nB nC : NewRecord)
    (tf : Nat) (pt : Rat) (errs0 : List ErrorRecord) (ec0 : Nat)
    (lu : Option String) (elapsed : Rat) (errs : List ErrorRecord) (now : String)
    (hab : rA.file ≠ rB.file) (hb : nB.file = rB.file)
    (hca : nC.file ≠ rA.file) (hcb : nC.file ≠ rB.file) :
    save_metadata ⟨[rA, rB], tf, pt, errs0, ec0, lu⟩ [nB, nC] elapsed errs now =
      ⟨[rA, stampRecord nB now, stampRecord nC now], 3, pt + elapsed, errs,
        errs.length, some now⟩ ∧
    (save_metadata ⟨[rA, rB], tf, pt, errs0, ec0, lu⟩ [nB, nC] elapsed
        errs now).files_processed.map FileRecord.file =
      [rA.file, rB.file, nC.file] := by
  have h1 : save_metadata ⟨[rA, rB], tf, pt, errs0, ec0, lu⟩ [nB, nC] elapsed errs now =
      ⟨[rA, stampRecord nB now, stampRecord nC now], 3, pt + elapsed, errs,
        errs.length, some now⟩ := by
    simp only [save_metadata, buildDict, List.foldl_cons, List.foldl_nil]
    rw [show dictInsert [] rA.file rA = [(rA.file, rA)] by simp [dictInsert]]
    rw [show dictInsert [(rA.file, rA)] rB.file rB =
        [(rA.file, rA), (rB.file, rB)] by
      simp [dictInsert, hab, Ne.symm hab]]
    rw [show dictInsert [(rA.file, rA), (rB.file, rB)] nB.file (stampRecord nB now) =
        [(rA.file, rA), (nB.file, stampRecord nB now)] by
      simp [dictInsert, hb, hab, Ne.symm hab]]
    rw [show dictInsert [(rA.file, rA), (nB.file, stampRecord nB now)] nC.file
          (stampRecord nC now) =
        [(rA.file, rA), (nB.file, stampRecord nB now), (nC.file, stampRecord nC now)] by
      simp [dictInsert, hb, hca, Ne.symm hca, hcb, Ne.symm hcb]]
    simp
  refine ⟨h1, ?_⟩
  rw [h1]
  simp [stampRecord, hb]

/-- C3 witness: concrete merge of `{A, B}` with `{B, C}`. -/
theorem claim3_witness :
    save_metadata ⟨[⟨"/d/a.pdf", 10, "/o/a.md", "T0"⟩, ⟨"/d/b.pdf", 20, "/o/b.md", "T0"⟩],
        2, 5, [], 0, none⟩
      [⟨"/d/b.pdf", 21, "/o/b.md"⟩, ⟨"/d/c.png", 30, "/o/c.md"⟩] 3
      [⟨"/d/x.pdf", "boom"⟩] "T2" =
    ⟨[⟨"/d/a.pdf", 10, "/o/a.md", "T0"⟩, ⟨"/d/b.pdf", 21, "/o/b.md", "T2"⟩,
        ⟨"/d/c.png", 30, "/o/c.md", "T2"⟩], 3, 8, [⟨"/d/x.pdf", "boom"⟩], 1,
      some "T2"⟩ := by
  rw [(claim3_save_metadata_merge ⟨"/d/a.pdf", 10, "/o/a.md", "T0"⟩
      ⟨"/d/b.pdf", 20, "/o/b.md", "T0"⟩ ⟨"/d/b.pdf", 21, "/o/b.md"⟩
      ⟨"/d/c.png", 30, "/o/c.md"⟩ 2 5 [] 0 none 3 [⟨"/d/x.pdf", "boom"⟩] "T2"
      (by decide) (by decide) (by decide) (by decide)).1]
  norm_num [stampRecord]

/-! ### OCR response shape and the result materializer (`save_results`) -/

/-- One image object of an API page.  `base64 = none` models an image
object without a `base64` attribute (the code guards every access with
`hasattr(image, 'base64')`). -/
structure OcrImage where
  base64 : Option String
deriving Repr, DecidableEq

/-- One page of the API response; `markdown`/`images` are `none` when the
corresponding attribute is absent (the code guards with `hasattr`). -/
structure OcrPage where
  index : Nat
  markdown : Option String
  images : Option (List OcrImage)
deriving Repr, DecidableEq

/-- The API response; `pages = none` models a response object without a
`pages` attribute. -/
structure OcrResponse where
  pages : Option (List OcrPage)
deriving Repr, DecidableEq

/-- `config.Config` (`config.py`); the fields the pipeline reads. -/
structure Config where
  api_key : String
  model : String := "mistral-ocr-latest"
  max_file_size_mb : Nat := 50
  max_pages : Nat := 1000
  output_format : String := "markdown"
  include_images : Bool := true
  verbose : Bool := false
deriving Repr, DecidableEq

/-- Observable effects of `OCRProcessor.save_results`: the markdown file
write (path and content), the image file writes in order (full path and
the decoded payload, represented by its base64 source string), and whether
the `images/` directory was created. -/
structure SaveRun where
  chunks : List String
  imageWrites : List (String × String)
  imagesDirCreated : Bool
deriving Repr, DecidableEq

/-- Body of the `for idx, image in enumerate(page.images)` loop. -/
def image_step (outputDir : String) (pageNumber : Nat) (acc : SaveRun)
    (entry : Nat × OcrImage) : SaveRun :=
  match entry.2.base64 with
  | some payload =>
    let imageFilename :=
      "page" ++ toString pageNumber ++ "_img" ++ toString (entry.1 + 1) ++ ".png"
    { acc with
      imageWrites := acc.imageWrites ++
        [(pathJoin (pathJoin outputDir "images") imageFilename, payload)]
      chunks := acc.chunks ++
        ["![Image " ++ toString (entry.1 + 1) ++ "](./images/" ++ imageFilename ++ ")\n\n"] }
  | none => acc

/-- Body of the `for page in response.pages` loop: `Page N` heading, the
page text when the `markdown` attribute exists, then (when image inclusion
is on and the page has a truthy `images` attribute) the `images/`
directory creation and the image loop. -/
def page_step (cfg : Config) (outputDir : String) (acc : SaveRun) (page : OcrPage) :
    SaveRun :=
  let acc1 := { acc with
    chunks := acc.chunks ++ ["## Page " ++ toString (page.index + 1) ++ "\n\n"] }
  let acc2 :=
    match page.markdown with
    | some md => { acc1 with chunks := acc1.chunks ++ [md, "\n\n"] }
    | none => acc1
  match page.images with
  | some imgs =>
    if cfg.include_images && !imgs.isEmpty then
      imgs.enum.foldl (image_step outputDir (page.index + 1))
        { acc2 with imagesDirCreated := true }
    else acc2
  | none => acc2

/-- The fixed header block of the markdown output. -/
def headerChunks (filePath now : String) : List String :=
  ["# OCR Results\n\n",
    "**Original File:** " ++ pathName filePath ++ "\n",
    "**Full Path:** `" ++ filePath ++ "`\n",
    "**Processed:** " ++ now ++ "\n\n",
    "---\n\n"]

/-- Result of `save_results`: one markdown write plus image writes. -/
structure SaveOutput where
  markdownPath : String
  content : String
  imageWrites : List (String × String)
  imagesDirCreated : Bool
deriving Repr, DecidableEq

/-- `OCRProcessor.save_results` (`processor.py`). -/
def save_results (cfg : Config) (filePath : String) (response : OcrResponse)
    (outputDir : String) (now : String) : SaveOutput :=
  let baseName := sanitize_filename (pathStem filePath)
  let markdownPath := pathJoin outputDir (baseName ++ ".md")
  let initRun : SaveRun := ⟨headerChunks filePath now, [], false⟩
  let run :=
    match response.pages with
    | some pages => pages.foldl (page_step cfg outputDir) initRun
    | none => initRun
  ⟨markdownPath, String.join run.chunks, run.imageWrites, run.imagesDirCreated⟩

/-! ### The processing pipeline (`processor.py`) -/

/-- A source file as the pipeline sees it: its path string and its
`stat().st_size` in bytes. -/
structure FileSystemFile where
  path : String
  sizeBytes : Nat
deriving Repr, DecidableEq

/-- Outcome of the OCR client adapter boundary for one file: the segment
from `create_data_uri` through `client.ocr.process` either returns a
response or raises, and the raise is caught by `process_file`'s
`except Exception` handler. -/
inductive ApiOutcome where
  | success (resp : OcrResponse)
  | failure (msg : String)
deriving Repr, DecidableEq

/-- The `FileTooLarge` `ValueError` message text.  The `{:.2f}` float
rendering of the megabyte count is approximated by truncated hundredths;
no claim inspects the digits. -/
def fileSizeErrorMessage (sizeBytes maxMb : Nat) : String :=
  "File size (" ++ toString (sizeBytes * 100 / 1048576 / 100) ++ "." ++
    toString (sizeBytes * 100 / 1048576 % 100) ++
    " MB) exceeds maximum allowed size (" ++ toString maxMb ++ " MB)"

/-- Observable result of `OCRProcessor.process_file` for one file: the
returned result dict (`none` when an exception was caught), the error
records appended to `self.errors`, and how many times the OCR client
adapter was invoked. -/
structure PFResult where
  result : Option OcrResponse
  newErrors : List ErrorRecord
  apiCalls : Nat
deriving Repr, DecidableEq

/-- `OCRProcessor.process_file`.  `Config.validate_file_size` compares
`st_size / (1024*1024) > max_file_size_mb` in exact power-of-two float
arithmetic, embedded as the equivalent integer comparison; it runs before
any adapter work, and `except Exception` converts any failure into exactly
one appended error record. -/
def process_file (cfg : Config) (api : String → ApiOutcome) (f : FileSystemFile) :
    PFResult :=
  if cfg.max_file_size_mb * 1048576 < f.sizeBytes then
    ⟨none, [⟨f.path, fileSizeErrorMessage f.sizeBytes cfg.max_file_size_mb⟩], 0⟩
  else
    match api f.path with
    | .success resp => ⟨some resp, [], 1⟩
    | .failure msg => ⟨none, [⟨f.path, msg⟩], 1⟩

/-- The three ways `OCRProcessor.process` can end on a file input. -/
inductive SingleOutcome where
  | alreadyProcessed
  | succeeded
  | failed
deriving Repr, DecidableEq

/-- Observable result of `OCRProcessor.process` on a file input: outcome,
adapter invocation count, accumulated errors and new records, the
materializer output when `save_results` ran, the number of
`save_metadata` calls, and the resulting on-disk metadata. -/
structure SingleRunResult where
  outcome : SingleOutcome
  apiCalls : Nat
  errors : List ErrorRecord
  newRecords : List NewRecord
  materialized : Option SaveOutput
  metadataSaves : Nat
  finalDisk : Metadata
deriving Repr, DecidableEq

/-- `OCRProcessor.process` on a file input (`input_path.is_file()` branch),
for a fresh processor (empty `self.errors` / `self.processed_files`, as
built per CLI invocation).  `disk` is the loaded metadata of the resolved
output directory; `save_metadata` is called only on the success branch. -/
def process_single (cfg : Config) (api : String → ApiOutcome)
    (input : FileSystemFile) (disk : Metadata) (reprocess : Bool)
    (outputDir : String) (elapsed : Rat) (now : String) : SingleRunResult :=
  let existingKeys := disk.files_processed.map FileRecord.file
  if input.path ∈ existingKeys ∧ reprocess = false then
    ⟨.alreadyProcessed, 0, [], [], none, 0, disk⟩
  else
    let pf := process_file cfg api input
    match pf.result with
    | some resp =>
      let baseName := sanitize_filename (pathStem input.path)
      let record : NewRecord :=
        ⟨input.path, input.sizeBytes, pathJoin outputDir (baseName ++ ".md")⟩
      ⟨.succeeded, pf.apiCalls, pf.newErrors, [record],
        some (save_results cfg input.path resp outputDir now), 1,
        save_metadata disk [record] elapsed pf.newErrors now⟩
    | none => ⟨.failed, pf.apiCalls, pf.newErrors, [], none, 0, disk⟩

/-- The skip-filtering of `process_directory`: a file is skipped exactly
when its path string is a key of the loaded metadata and reprocessing was
not requested. -/
def files_to_process (files : List FileSystemFile) (disk : Metadata)
    (reprocess : Bool) : List FileSystemFile :=
  let existingKeys := disk.files_processed.map FileRecord.file
  files.filter (fun f => !(decide (f.path ∈ existingKeys) && !reprocess))

/-- Accumulator state of the `for file_path in files_to_process` loop:
`self.processed_files`, `self.errors`, the success counter, and the paths
the adapter was invoked on. -/
structure BatchAcc where
  processed : List NewRecord
  errors : List ErrorRecord
  successCount : Nat
  apiCalledPaths : List String
deriving Repr, DecidableEq

/-- One iteration of the batch loop in `process_directory`. -/
def batch_step (cfg : Config) (api : String → ApiOutcome) (outputPath : String)
    (acc : BatchAcc) (f : FileSystemFile) : BatchAcc :=
  let pf := process_file cfg api f
  let acc1 := { acc with
    errors := acc.errors ++ pf.newErrors
    apiCalledPaths := acc.apiCalledPaths ++
      (if pf.apiCalls = 0 then [] else [f.path]) }
  match pf.result with
  | some _ =>
    let baseName := sanitize_filename (pathStem f.path)
    { acc1 with
      processed := acc1.processed ++
        [⟨f.path, f.sizeBytes, pathJoin outputPath (baseName ++ ".md")⟩]
      successCount := acc1.successCount + 1 }
  | none => acc1

/-- Observable result of `OCRProcessor.process_directory`. -/
structure DirRunResult where
  successCount : Nat
  attempted : Nat
  newRecords : List NewRecord
  errors : List ErrorRecord
  apiCalledPaths : List String
  metadataSaves : Nat
  finalDisk : Metadata
deriving Repr, DecidableEq

/-- `OCRProcessor.process_directory` for a fresh processor: discovery
result `files`, early exit when nothing was found or everything is
skipped (metadata untouched), otherwise the sequential batch loop
followed by exactly one `save_metadata` call. -/
def process_directory (cfg : Config) (api : String → ApiOutcome)
    (files : List FileSystemFile) (disk : Metadata) (reprocess : Bool)
    (outputPath : String) (elapsed : Rat) (now : String) : DirRunResult :=
  if files = [] then ⟨0, 0, [], [], [], 0, disk⟩
  else
    let ftp := files_to_process files disk reprocess
    if ftp = [] then ⟨0, 0, [], [], [], 0, disk⟩
    else
      let acc := ftp.foldl (batch_step cfg api outputPath) ⟨[], [], 0, []⟩
      ⟨acc.successCount, ftp.length, acc.processed, acc.errors,
        acc.apiCalledPaths, 1, save_metadata disk acc.processed elapsed acc.errors now⟩

/-! ### Per-file lemmas and pipeline claims (C1, C2, C5, C6) -/

theorem process_file_failed_errors (cfg : Config) (api : String → ApiOutcome)
    (f : FileSystemFile) (h : (process_file cfg api f).result = none) :
    (process_file cfg api f).newErrors.length = 1 := by
  unfold process_file at h ⊢
  by_cases hs : cfg.max_file_size_mb * 1048576 < f.sizeBytes
  · simp [hs]
  · simp only [if_neg hs] at h ⊢
    cases hapi : api f.path with
    | success r => rw [hapi] at h; simp at h
    | failure m => simp [hapi]

theorem process_file_success_errors (cfg : Config) (api : String → ApiOutcome)
    (f : FileSystemFile) (h : (process_file cfg api f).result.isSome) :
    (process_file cfg api f).newErrors = [] := by
  unfold process_file at h ⊢
  by_cases hs : cfg.max_file_size_mb * 1048576 < f.sizeBytes
  · simp [hs] at h
  · simp only [if_neg hs] at h ⊢
    cases hapi : api f.path with
    | success r => simp [hapi]
    | failure m => rw [hapi] at h; simp at h

/-- C1 — with the reprocess flag off, a file whose path string is a key of
the loaded metadata is skipped: in single-file mode `process` returns the
"already processed" outcome with zero adapter invocations, zero metadata
writes, and an unchanged on-disk metadata (so a unique FileRecord for the
path stays unique); in directory mode the file is excluded from
`files_to_process` and hence never attempted. -/
theorem claim1_skip_already_processed (cfg : Config) (api : String → ApiOutcome)
    (input : FileSystemFile) (disk : Metadata) (outputDir : String)
    (elapsed : Rat) (now : String)
    (hmem : input.path ∈ disk.files_processed.map FileRecord.file) :
    process_single cfg api input disk false outputDir elapsed now =
      ⟨.alreadyProcessed, 0, [], [], none, 0, disk⟩ ∧
    ((disk.files_processed.filter
        (fun fr => decide (fr.file = input.path))).length = 1 →
      ((process_single cfg api input disk false outputDir elapsed
          now).finalDisk.files_processed.filter
        (fun fr => decide (fr.file = input.path))).length = 1) ∧
    ∀ files : List FileSystemFile,
      ∀ f ∈ files_to_process files disk false, f.path ≠ input.path := by
  have hskip : process_single cfg api input disk false outputDir elapsed now =
      ⟨.alreadyProcessed, 0, [], [], none, 0, disk⟩ := by
    unfold process_single
    rw [if_pos ⟨hmem, rfl⟩]
  refine ⟨hskip, ?_, ?_⟩
  · intro h1
    rw [hskip]
    exact h1
  · intro files f hf heq
    unfold files_to_process at hf
    rw [List.mem_filter] at hf
    have hnot := hf.2
    simp only [Bool.not_eq_true', Bool.and_eq_false_iff, decide_eq_false_iff_not,
      Bool.not_false] at hnot
    rcases hnot with hnot | hnot
    · exact hnot (heq ▸ hmem)
    · simp at hnot

/-- Fixture configuration used by the concrete witnesses. -/
def cfgW : Config := ⟨"key", "mistral-ocr-latest", 50, 1000, "markdown", true, false⟩

/-- Fixture metadata recording `/d/a.pdf` as already processed. -/
def diskW : Metadata :=
  ⟨[⟨"/d/a.pdf", 100, "/o/a.md", "T0"⟩], 1, 5, [], 0, some "T0"⟩

theorem claim1_skip_already_processed_witness :
    process_single cfgW (fun _ => .failure "adapter must not run") ⟨"/d/a.pdf", 100⟩
      diskW false "/o" 2 "T1" =
      ⟨.alreadyProcessed, 0, [], [], none, 0, diskW⟩ :=
  (claim1_skip_already_processed cfgW (fun _ => .failure "adapter must not run")
    ⟨"/d/a.pdf", 100⟩ diskW "/o" 2 "T1" (by decide)).1

/-- C2 counterexample — single-file run, adapter failure: exactly one
ErrorRecord is appended, but `save_metadata` is never called, so the
metadata carrying that ErrorRecord is NOT persisted (the claim requires
exactly one persist). -/
theorem claim2_counterexample :
    (process_single cfgW (fun _ => .failure "boom") ⟨"/d/a.pdf", 100⟩
        emptyMetadata false "/o" 2 "T1").errors = [⟨"/d/a.pdf", "boom"⟩] ∧
    (process_single cfgW (fun _ => .failure "boom") ⟨"/d/a.pdf", 100⟩
        emptyMetadata false "/o" 2 "T1").finalDisk = emptyMetadata ∧
    ¬ (process_single cfgW (fun _ => .failure "boom") ⟨"/d/a.pdf", 100⟩
        emptyMetadata false "/o" 2 "T1").metadataSaves = 1 := by decide

/-- C2 (amended) — in single-file processing, when the OCR invocation
fails, exactly one ErrorRecord is appended and previously stored
FileRecords are left untouched, but the metadata is NOT persisted:
`save_metadata` runs zero times (it is called only on the success path),
so the on-disk metadata is exactly the prior one. -/
theorem claim2_failure_appends_error_without_persist (cfg : Config)
    (api : String → ApiOutcome) (input : FileSystemFile) (disk : Metadata)
    (reprocess : Bool) (outputDir : String) (elapsed : Rat) (now : String)
    (hskip : ¬(input.path ∈ disk.files_processed.map FileRecord.file ∧
      reprocess = false))
    (hfail : (process_file cfg api input).result = none) :
    (process_single cfg api input disk reprocess outputDir elapsed
      now).errors.length = 1 ∧
    (process_single cfg api input disk reprocess outputDir elapsed
      now).newRecords = [] ∧
    (process_single cfg api input disk reprocess outputDir elapsed
      now).finalDisk = disk ∧
    (process_single cfg api input disk reprocess outputDir elapsed
      now).metadataSaves = 0 := by
  have hps : process_single cfg api input disk reprocess outputDir elapsed now =
      ⟨.failed, (process_file cfg api input).apiCalls,
        (process_file cfg api input).newErrors, [], none, 0, disk⟩ := by
    unfold process_single
    rw [if_neg hskip]
    simp only [hfail]
  rw [hps]
  exact ⟨process_file_failed_errors cfg api input hfail, rfl, rfl, rfl⟩

theorem claim2_failure_appends_error_without_persist_witness :
    (process_single cfgW (fun _ => .failure "boom") ⟨"/d/a.pdf", 100⟩
      emptyMetadata false "/o" 2 "T1").errors.length = 1 ∧
    (process_single cfgW (fun _ => .failure "boom") ⟨"/d/a.pdf", 100⟩
      emptyMetadata false "/o" 2 "T1").newRecords = [] ∧
    (process_single cfgW (fun _ => .failure "boom") ⟨"/d/a.pdf", 100⟩
      emptyMetadata false "/o" 2 "T1").finalDisk = emptyMetadata ∧
    (process_single cfgW (fun _ => .failure "boom") ⟨"/d/a.pdf", 100⟩
      emptyMetadata false "/o" 2 "T1").metadataSaves = 0 :=
  claim2_failure_appends_error_without_persist cfgW (fun _ => .failure "boom")
    ⟨"/d/a.pdf", 100⟩ emptyMetadata false "/o" 2 "T1" (by decide) (by decide)

/-- C5 — an oversized file fails before any network call: zero adapter
invocations, exactly the one FileTooLarge ErrorRecord for that path, no
result dict, and in the batch loop no FileRecord is appended and the
adapter invocation list is unchanged. -/
theorem claim5_file_too_large_no_api_call (cfg : Config)
    (api : String → ApiOutcome) (f : FileSystemFile)
    (h : cfg.max_file_size_mb * 1048576 < f.sizeBytes) :
    (process_file cfg api f).apiCalls = 0 ∧
    (process_file cfg api f).result = none ∧
    (process_file cfg api f).newErrors =
      [⟨f.path, fileSizeErrorMessage f.sizeBytes cfg.max_file_size_mb⟩] ∧
    ∀ (out : String) (acc : BatchAcc),
      (batch_step cfg api out acc f).processed = acc.processed ∧
      (batch_step cfg api out acc f).apiCalledPaths = acc.apiCalledPaths ∧
      (batch_step cfg api out acc f).errors = acc.errors ++
        [⟨f.path, fileSizeErrorMessage f.sizeBytes cfg.max_file_size_mb⟩] := by
  have hpf : process_file cfg api f =
      ⟨none, [⟨f.path, fileSizeErrorMessage f.sizeBytes cfg.max_file_size_mb⟩], 0⟩ := by
    unfold process_file
    rw [if_pos h]
  refine ⟨by rw [hpf], by rw [hpf], by rw [hpf], ?_⟩
  intro out acc
  unfold batch_step
  rw [hpf]
  exact ⟨rfl, by simp, rfl⟩

theorem claim5_file_too_large_no_api_call_witness :
    (process_file cfgW (fun _ => .success ⟨some []⟩) ⟨"/d/big.pdf", 83886080⟩).apiCalls
        = 0 ∧
    (process_file cfgW (fun _ => .success ⟨some []⟩) ⟨"/d/big.pdf", 83886080⟩).result
        = none ∧
    (process_file cfgW (fun _ => .success ⟨some []⟩)
        ⟨"/d/big.pdf", 83886080⟩).newErrors =
      [⟨"/d/big.pdf", fileSizeErrorMessage 83886080 50⟩] :=
  have h := claim5_file_too_large_no_api_call cfgW (fun _ => .success ⟨some []⟩)
    ⟨"/d/big.pdf", 83886080⟩ (by decide)
  ⟨h.1, h.2.1, h.2.2.1⟩

/-- Whether `process_file` fails for this file (size gate or adapter). -/
def fileFails (cfg : Config) (api : String → ApiOutcome) (f : FileSystemFile) : Bool :=
  (process_file cfg api f).result.isNone

theorem countP_bool_split {α : Type} (p : α → Bool) (l : List α) :
    l.countP p + l.countP (fun a => !p a) = l.length := by
  induction l with
  | nil => simp
  | cons a l ih =>
    cases h : p a <;> simp [List.countP_cons, h] <;> omega

theorem batch_fold_counts (cfg : Config) (api : String → ApiOutcome) (out : String) :
    ∀ (l : List FileSystemFile) (acc : BatchAcc),
      (l.foldl (batch_step cfg api out) acc).successCount =
        acc.successCount + l.countP (fun f => !(fileFails cfg api f)) ∧
      (l.foldl (batch_step cfg api out) acc).errors.length =
        acc.errors.length + l.countP (fileFails cfg api) ∧
      (l.foldl (batch_step cfg api out) acc).processed.length =
        acc.processed.length + l.countP (fun f => !(fileFails cfg api f))
  | [], acc => by simp
  | f :: fs, acc => by
    obtain ⟨h1, h2, h3⟩ :=
      batch_fold_counts cfg api out fs (batch_step cfg api out acc f)
    rw [List.foldl_cons, h1, h2, h3]
    cases hres : (process_file cfg api f).result with
    | none =>
      have hfail : fileFails cfg api f = true := by
        unfold fileFails; rw [hres]; rfl
      have herr := process_file_failed_errors cfg api f hres
      refine ⟨?_, ?_, ?_⟩ <;>
        simp [batch_step, hres, List.countP_cons, hfail, herr] <;> omega
    | some r =>
      have hok : fileFails cfg api f = false := by
        unfold fileFails; rw [hres]; rfl
      have herr := process_file_success_errors cfg api f (by rw [hres]; rfl)
      refine ⟨?_, ?_, ?_⟩ <;>
        simp [batch_step, hres, List.countP_cons, hok, herr] <;> omega

/-- C6 — a directory batch in which exactly one of the files to process
fails produces exactly `N-1` FileRecords and exactly one ErrorRecord,
reports `success_count = N-1` and `attempted_count = N`, and persists the
metadata exactly once (every sibling is attempted: each file contributes
either a record or an error, and `N-1 + 1 = N`). -/
theorem claim6_partial_failure_isolation (cfg : Config)
    (api : String → ApiOutcome) (files : List FileSystemFile) (disk : Metadata)
    (reprocess : Bool) (out : String) (elapsed : Rat) (now : String)
    (hone : (files_to_process files disk reprocess).countP (fileFails cfg api) = 1) :
    (process_directory cfg api files disk reprocess out elapsed now).successCount =
      (files_to_process files disk reprocess).length - 1 ∧
    (process_directory cfg api files disk reprocess out elapsed now).attempted =
      (files_to_process files disk reprocess).length ∧
    (process_directory cfg api files disk reprocess out elapsed
        now).newRecords.length =
      (files_to_process files disk reprocess).length - 1 ∧
    (process_directory cfg api files disk reprocess out elapsed
        now).errors.length = 1 ∧
    (process_directory cfg api files disk reprocess out elapsed
        now).metadataSaves = 1 := by
  have hftp : files_to_process files disk reprocess ≠ [] := by
    intro h
    rw [h] at hone
    simp at hone
  have hfiles : files ≠ [] := by
    intro h
    apply hftp
    rw [h]
    rfl
  obtain ⟨hc1, hc2, hc3⟩ := batch_fold_counts cfg api out
    (files_to_process files disk reprocess) ⟨[], [], 0, []⟩
  have hsplit := countP_bool_split (fileFails cfg api)
    (files_to_process files disk reprocess)
  have hle := List.countP_le_length (p := fileFails cfg api)
    (l := files_to_process files disk reprocess)
  unfold process_directory
  rw [if_neg hfiles]
  simp only [if_neg hftp]
  refine ⟨?_, trivial, ?_, ?_, trivial⟩
  · show (_ : BatchAcc).successCount = _
    rw [hc1]
    simp only [List.length_nil]
    omega
  · show ((_ : BatchAcc).processed).length = _
    rw [hc3]
    simp only [List.length_nil]
    omega
  · show ((_ : BatchAcc).errors).length = _
    rw [hc2]
    simp only [List.length_nil]
    omega

/-- Fixture adapter failing exactly on `/d/b.pdf`. -/
def apiW : String → ApiOutcome := fun p =>
  if p = "/d/b.pdf" then .failure "boom" else .success ⟨some []⟩

/-- Fixture batch of three files. -/
def filesW : List FileSystemFile :=
  [⟨"/d/a.pdf", 100⟩, ⟨"/d/b.pdf", 50⟩, ⟨"/d/c.png", 60⟩]

theorem claim6_partial_failure_isolation_witness :
    (process_directory cfgW apiW filesW emptyMetadata false "/o" 0
        "T1").successCount =
      (files_to_process filesW emptyMetadata false).length - 1 ∧
    (process_directory cfgW apiW filesW emptyMetadata false "/o" 0 "T1").attempted =
      (files_to_process filesW emptyMetadata false).length ∧
    (process_directory cfgW apiW filesW emptyMetadata false "/o" 0
        "T1").newRecords.length =
      (files_to_process filesW emptyMetadata false).length - 1 ∧
    (process_directory cfgW apiW filesW emptyMetadata false "/o" 0
        "T1").errors.length = 1 ∧
    (process_directory cfgW apiW filesW emptyMetadata false "/o" 0
        "T1").metadataSaves = 1 :=
  claim6_partial_failure_isolation cfgW apiW filesW emptyMetadata false "/o" 0 "T1"
    (by decide)

/-! ### File discovery (`get_supported_files`, claim C7) -/

/-- One filesystem entry as enumerated by `directory.rglob("*")`: its full
path string and whether it is a regular file.  The list order models the
(unspecified) enumeration order of the directory walk. -/
structure FSEntry where
  path : String
  isFile : Bool
deriving Repr, DecidableEq

/-- The supported-extension set of `get_supported_files`. -/
def supportedExtensions : List String :=
  [".pdf", ".jpg", ".jpeg", ".png", ".webp", ".gif", ".bmp", ".tiff"]

/-- `rglob` membership: the entry lies strictly below the root directory. -/
def underDirectory (directory path : String) : Bool :=
  (directory.data ++ ['/']).isPrefixOf path.data

/-- `utils.get_supported_files`: the recursively enumerated regular files
whose lower-cased suffix is supported, returned `sorted` (Python sorts
`Path` values by their full path string on POSIX). -/
def get_supported_files (fs : List FSEntry) (directory : String) : List String :=
  let files := (fs.filter (fun e =>
    underDirectory directory e.path && e.isFile &&
      decide (lowerString (pathSuffix e.path) ∈ supportedExtensions))).map FSEntry.path
  List.insertionSort pathLe files

/-- C7 — discovery returns exactly the files under the root whose
case-insensitive extension is supported, sorted by full path, and the
result is independent of the enumeration order of the directory walk (in
particular two consecutive calls on an unchanged directory agree). -/
theorem claim7_discovery_sorted_complete (fs : List FSEntry) (directory : String) :
    (get_supported_files fs directory).Sorted pathLe ∧
    (∀ p : String, p ∈ get_supported_files fs directory ↔
      ∃ e ∈ fs, e.path = p ∧ underDirectory directory e.path = true ∧
        e.isFile = true ∧ lowerString (pathSuffix e.path) ∈ supportedExtensions) ∧
    ∀ fs' : List FSEntry, fs.Perm fs' →
      get_supported_files fs' directory = get_supported_files fs directory := by
  refine ⟨List.sorted_insertionSort pathLe _, ?_, ?_⟩
  · intro p
    unfold get_supported_files
    rw [(List.perm_insertionSort pathLe _).mem_iff]
    simp only [List.mem_map, List.mem_filter, Bool.and_eq_true, decide_eq_true_eq]
    constructor
    · rintro ⟨e, ⟨he, ⟨h1, h2⟩, h3⟩, rfl⟩
      exact ⟨e, he, rfl, h1, h2, h3⟩
    · rintro ⟨e, he, rfl, h1, h2, h3⟩
      exact ⟨e, ⟨he, ⟨h1, h2⟩, h3⟩, rfl⟩
  · intro fs' hperm
    apply List.eq_of_perm_of_sorted (r := pathLe)
    · exact ((List.perm_insertionSort pathLe _).trans
        ((hperm.symm.filter _).map _)).trans
        (List.perm_insertionSort pathLe _).symm
    · exact List.sorted_insertionSort pathLe _
    · exact List.sorted_insertionSort pathLe _

/-- Fixture directory walk (one unsupported file, one non-file entry). -/
def fsW : List FSEntry :=
  [⟨"/r/sub/b.PDF", true⟩, ⟨"/r/a.png", true⟩, ⟨"/r/sub", false⟩,
    ⟨"/r/c.txt", true⟩]

/-- The same walk in a different enumeration order. -/
def fsPermW : List FSEntry :=
  [⟨"/r/a.png", true⟩, ⟨"/r/c.txt", true⟩, ⟨"/r/sub", false⟩,
    ⟨"/r/sub/b.PDF", true⟩]

theorem claim7_discovery_sorted_complete_witness :
    get_supported_files fsPermW "/r" = get_supported_files fsW "/r" ∧
    get_supported_files fsW "/r" = ["/r/a.png", "/r/sub/b.PDF"] :=
  ⟨(claim7_discovery_sorted_complete fsW "/r").2.2 fsPermW (by decide), by decide⟩

/-! ### Metadata loading surfaced through the CLI (claim C9) -/

/-- A single-file `process` run together with the `load_metadata` call it
starts with: the `json.JSONDecodeError` of an unparseable `metadata.json`
is raised outside every per-file `try/except` and so propagates out of
`process`. -/
def process_single_checked (cfg : Config) (api : String → ApiOutcome)
    (input : FileSystemFile) (mdFile : MetadataFile) (reprocess : Bool)
    (outputDir : String) (elapsed : Rat) (now : String) :
    Except String SingleRunResult :=
  (load_metadata mdFile).map
    (fun disk => process_single cfg api input disk reprocess outputDir elapsed now)

/-- `cli.main`'s exit code around `processor.process`: a propagated
`ValueError` — and `json.JSONDecodeError` is a subclass of `ValueError` —
is caught by `except ValueError` and turned into `sys.exit(1)`; a
completed run reaches the end of `main` (exit code 0). -/
def cliExitCode (r : Except String SingleRunResult) : Nat :=
  match r with
  | .error _ => 1
  | .ok _ => 0

/-- C9 — loading from a directory without `metadata.json` returns the
zero-valued metadata and never fails, while an unparseable `metadata.json`
surfaces an error that aborts the invocation with a non-zero exit code
instead of silently resetting the stored history. -/
theorem claim9_load_metadata_missing_and_corrupt (cfg : Config)
    (api : String → ApiOutcome) (input : FileSystemFile) (reprocess : Bool)
    (outputDir : String) (elapsed : Rat) (now : String) :
    load_metadata .absent = .ok emptyMetadata ∧
    emptyMetadata.files_processed = [] ∧ emptyMetadata.errors = [] ∧
    emptyMetadata.total_files = 0 ∧ emptyMetadata.processing_time_seconds = 0 ∧
    emptyMetadata.error_count = 0 ∧
    (∃ msg, load_metadata .unparseable = .error msg) ∧
    cliExitCode (process_single_checked cfg api input .unparseable reprocess
      outputDir elapsed now) = 1 ∧
    cliExitCode (process_single_checked cfg api input .unparseable reprocess
      outputDir elapsed now) ≠ 0 := by
  exact ⟨rfl, rfl, rfl, rfl, rfl, rfl, ⟨_, rfl⟩, rfl, Nat.one_ne_zero⟩

/-! ### Output-directory resolution (`determine_output_path`, claim C10) -/

/-- Result of `utils.determine_output_path`: the resolved directory and
the directories created on the file system as a side effect. -/
structure OutputPathResult where
  result : String
  createdDirs : List String
deriving Repr, DecidableEq

/-- `utils.determine_output_path`: an explicit (non-`None`, and a `Path`
is always truthy) override is returned unchanged with no `mkdir`;
otherwise the default folder name — timestamp-suffixed when requested —
is joined onto the input's parent (file input) or the input directory
itself, and that directory is created eagerly. -/
def determine_output_path (inputPath : String) (inputIsFile : Bool)
    (outputPath : Option String) (defaultFolderName : String)
    (addTimestamp : Bool) (timestamp : String) : OutputPathResult :=
  match outputPath with
  | some o => ⟨o, []⟩
  | none =>
    let parentDir := if inputIsFile then pathParent inputPath else inputPath
    let folderName :=
      if addTimestamp then defaultFolderName ++ "_" ++ timestamp
      else defaultFolderName
    let outputDir := pathJoin parentDir folderName
    ⟨outputDir, [outputDir]⟩

/-- C10 — with an explicit override the resolver returns that path
unchanged, creating nothing and ignoring `add_timestamp`; only the default
output directory (input's parent, or the input directory itself, joined
with the default folder name, optionally timestamp-suffixed) is created
eagerly as a side effect of resolution. -/
theorem claim10_output_path_resolution (inputPath : String) (inputIsFile : Bool)
    (defaultFolderName : String) (addTimestamp : Bool) (timestamp : String)
    (o : String) :
    determine_output_path inputPath inputIsFile (some o) defaultFolderName
      addTimestamp timestamp = ⟨o, []⟩ ∧
    (determine_output_path inputPath inputIsFile none defaultFolderName
      addTimestamp timestamp).createdDirs =
      [(determine_output_path inputPath inputIsFile none defaultFolderName
        addTimestamp timestamp).result] ∧
    (determine_output_path inputPath inputIsFile none defaultFolderName
      addTimestamp timestamp).result =
      pathJoin (if inputIsFile then pathParent inputPath else inputPath)
        (if addTimestamp then defaultFolderName ++ "_" ++ timestamp
        else defaultFolderName) :=
  ⟨rfl, rfl, rfl⟩

/-! ### Materializer refinement (claim C8) -/

/-- Spec-worded description (§4.3) of the chunks of one page section:
`Page N` heading with `N` the page's API index plus one, the page's
markdown body verbatim, then — when image inclusion is enabled — one
relative `./images/page{N}_img{M}.png` reference (1-indexed `M`) per
payload-carrying image. -/
def specImageFilename (pageNumber m : Nat) : String :=
  "page" ++ toString pageNumber ++ "_img" ++ toString m ++ ".png"

def specPageChunks (cfg : Config) (page : OcrPage) : List String :=
  ["## Page " ++ toString (page.index + 1) ++ "\n\n"] ++
  (match page.markdown with
    | some md => [md, "\n\n"]
    | none => []) ++
  (if cfg.include_images then
    (page.images.getD []).enum.filterMap (fun entry =>
      entry.2.base64.map (fun _ =>
        "![Image " ++ toString (entry.1 + 1) ++ "](./images/" ++
          specImageFilename (page.index + 1) (entry.1 + 1) ++ ")\n\n"))
  else [])

/-- Spec-worded description of the image files written for one page:
`images/page{N}_img{M}.png` (1-indexed), one per payload-carrying image,
when image inclusion is enabled. -/
def specPageWrites (cfg : Config) (outputDir : String) (page : OcrPage) :
    List (String × String) :=
  if cfg.include_images then
    (page.images.getD []).enum.filterMap (fun entry =>
      entry.2.base64.map (fun payload =>
        (pathJoin (pathJoin outputDir "images")
          (specImageFilename (page.index + 1) (entry.1 + 1)), payload)))
  else []

/-- Whether a page has a truthy `images` attribute. -/
def pageHasImages (page : OcrPage) : Bool :=
  match page.images with
  | some imgs => !imgs.isEmpty
  | none => false

theorem image_fold_spec (out : String) (n : Nat) :
    ∀ (l : List (Nat × OcrImage)) (acc : SaveRun),
      l.foldl (image_step out n) acc =
        ⟨acc.chunks ++ l.filterMap (fun entry => entry.2.base64.map (fun _ =>
            "![Image " ++ toString (entry.1 + 1) ++ "](./images/" ++
              specImageFilename n (entry.1 + 1) ++ ")\n\n")),
          acc.imageWrites ++ l.filterMap (fun entry =>
            entry.2.base64.map (fun payload =>
              (pathJoin (pathJoin out "images")
                (specImageFilename n (entry.1 + 1)), payload))),
          acc.imagesDirCreated⟩
  | [], acc => by simp
  | e :: l, acc => by
    rw [List.foldl_cons, image_fold_spec out n l]
    cases hb : e.2.base64 with
    | none => simp [image_step, hb]
    | some payload => simp [image_step, hb, specImageFilename]

theorem page_fold_spec (cfg : Config) (out : String) :
    ∀ (ps : List OcrPage) (acc : SaveRun),
      ps.foldl (page_step cfg out) acc =
        ⟨acc.chunks ++ (ps.map (specPageChunks cfg)).flatten,
          acc.imageWrites ++ (ps.map (specPageWrites cfg out)).flatten,
          acc.imagesDirCreated || (cfg.include_images && ps.any pageHasImages)⟩
  | [], acc => by simp
  | p :: ps, acc => by
    rw [List.foldl_cons, page_fold_spec cfg out ps]
    cases him : p.images with
    | none =>
      cases hmd : p.markdown with
      | none =>
        simp [page_step, specPageChunks, specPageWrites, pageHasImages, him, hmd,
          Bool.or_assoc]
      | some md =>
        simp [page_step, specPageChunks, specPageWrites, pageHasImages, him, hmd,
          Bool.or_assoc]
    | some imgs =>
      by_cases hinc : cfg.include_images && !imgs.isEmpty
      · obtain ⟨h1, h2⟩ := Bool.and_eq_true .. |>.mp hinc
        have hne : imgs.isEmpty = false := by simpa using h2
        cases hmd : p.markdown with
        | none =>
          simp [page_step, specPageChunks, specPageWrites, pageHasImages, him,
            hmd, hinc, image_fold_spec, h1, hne, Bool.or_assoc]
        | some md =>
          simp [page_step, specPageChunks, specPageWrites, pageHasImages, him,
            hmd, hinc, image_fold_spec, h1, hne, Bool.or_assoc]
      · cases hmd : p.markdown with
        | none =>
          simp only [Bool.and_eq_true, Bool.not_eq_true', not_and,
            Bool.not_eq_false] at hinc
          by_cases hci : cfg.include_images = true
          · have himgs : imgs.isEmpty = true := hinc hci
            simp [page_step, specPageChunks, specPageWrites, pageHasImages, him,
              hmd, hci, himgs, List.isEmpty_iff.mp himgs, Bool.or_assoc]
          · simp only [Bool.not_eq_true] at hci
            simp [page_step, specPageChunks, specPageWrites, pageHasImages, him,
              hmd, hci, Bool.or_assoc]
        | some md =>
          simp only [Bool.and_eq_true, Bool.not_eq_true', not_and,
            Bool.not_eq_false] at hinc
          by_cases hci : cfg.include_images = true
          · have himgs : imgs.isEmpty = true := hinc hci
            simp [page_step, specPageChunks, specPageWrites, pageHasImages, him,
              hmd, hci, himgs, List.isEmpty_iff.mp himgs, Bool.or_assoc]
          · simp only [Bool.not_eq_true] at hci
            simp [page_step, specPageChunks, specPageWrites, pageHasImages, him,
              hmd, hci, Bool.or_assoc]

/-- C8 counterexample — a response page with a truthy `images` list whose
single image object carries no `base64` payload: the `images/` directory
is created even though zero images are written, refuting "the images/
directory is created only if at least one image must be written". -/
theorem claim8_counterexample :
    (save_results cfgW "/d/a.pdf" ⟨some [⟨0, some "text", some [⟨none⟩]⟩]⟩ "/o"
      "T1").imagesDirCreated = true ∧
    (save_results cfgW "/d/a.pdf" ⟨some [⟨0, some "text", some [⟨none⟩]⟩]⟩ "/o"
      "T1").imageWrites = [] := by decide

/-- C8 (amended) — materialization writes one markdown file named after
the sanitized untruncated stem, whose content is the fixed header followed
by one section per page in API order (`Page N` heading with `N` the page's
API index plus one, body verbatim), writes `images/page{N}_img{M}.png`
(1-indexed) with a relative `./images/...` reference appended after the
page's text for each payload-carrying image when image inclusion is
enabled, and creates the `images/` directory iff image inclusion is
enabled and some page has a nonempty `images` attribute (even when none of
those images carries a payload to write). -/
theorem claim8_materializer_refines_spec (cfg : Config) (filePath : String)
    (ps : List OcrPage) (outputDir now : String) :
    save_results cfg filePath ⟨some ps⟩ outputDir now =
      ⟨pathJoin outputDir (sanitize_filename (pathStem filePath) ++ ".md"),
        String.join (headerChunks filePath now ++
          (ps.map (specPageChunks cfg)).flatten),
        (ps.map (specPageWrites cfg outputDir)).flatten,
        cfg.include_images && ps.any pageHasImages⟩ := by
  show (⟨pathJoin outputDir (sanitize_filename (pathStem filePath) ++ ".md"),
      String.join (ps.foldl (page_step cfg outputDir)
        ⟨headerChunks filePath now, [], false⟩).chunks,
      (ps.foldl (page_step cfg outputDir)
        ⟨headerChunks filePath now, [], false⟩).imageWrites,
      (ps.foldl (page_step cfg outputDir)
        ⟨headerChunks filePath now, [], false⟩).imagesDirCreated⟩ : SaveOutput) = _
  rw [page_fold_spec]
  simp

end MistralOcr
